import Mathlib

/-!
Verification development for the `heappy_async` sampling heap profiler
(`src/profiler.rs`).  The Rust source is shallowly embedded: machine
integers (`isize`, `i64`, `usize`) become `Int`/`Nat`, thread-local cells
become explicit state, the asynchronous flush task becomes an explicit
state transition, and code that can panic (assertions, `unwrap`) returns
`Option`.  The `collector` module of the crate is not present under
`src/`; its two types are modelled from the specification (see the doc
comments marked `Modelled from the spec:`).
-/

set_option linter.unusedVariables false

namespace heappy

/-- A captured stack frame.  Of `backtrace::Frame` only `symbol_address()`
is ever observed by this code; it is abstracted as a numeric address. -/
structure Frame where
  symbol_address : Nat
deriving DecidableEq, Repr

/-- `Frames<N>` from profiler.rs: a fixed-capacity stack capture.  The
source's `[MaybeUninit<Frame>; N]` array together with `size` is modelled
as the list of the `size` initialized frames (so `size = frames.length`);
`ts` is the capture timestamp. -/
structure Frames (N : Nat) where
  frames : List Frame
  ts : Nat
deriving DecidableEq, Repr

/-- `Frames::new`: empty capture. -/
def Frames.new (N : Nat) : Frames N := { frames := [], ts := 0 }

/-- `Frames::push`: the source asserts `self.size < N` (modelled as
returning `none` when that precondition fails), writes the frame,
increments `size`, and returns `self.size < N` after the increment. -/
def Frames.push {N : Nat} (self : Frames N) (frame : Frame) : Option (Frames N × Bool) :=
  if self.frames.length < N then
    let pushed : Frames N := { self with frames := self.frames ++ [frame] }
    some (pushed, decide (pushed.frames.length < N))
  else
    none

/-- `backtrace::trace_unsynchronized(|frame| bt.push(frame))`: walk the
machine stack (given as a list of frames), pushing each frame, and stop
as soon as the callback returns `false`.  Returns `none` if a push hits
its assertion. -/
def traceWalk {N : Nat} (bt : Frames N) : List Frame → Option (Frames N)
  | [] => some bt
  | fr :: rest =>
    match bt.push fr with
    | none => none
    | some (bt2, keepGoing) => if keepGoing then traceWalk bt2 rest else some bt2

/-- `impl PartialEq for Frames`: zip the two frame iterators (zip stops at
the shorter one) and compare the symbol addresses positionwise. -/
def Frames.beq {N : Nat} (a b : Frames N) : Bool :=
  ((a.frames.zip b.frames).map fun p => p.1.symbol_address == p.2.symbol_address).all fun e => e

/-- `impl Hash for Frames`: the data fed to the hasher is each captured
frame's symbol address, in order.  Two buffers hash identically iff these
sequences are equal. -/
def Frames.hashInput {N : Nat} (a : Frames N) : List Nat :=
  a.frames.map fun f => f.symbol_address

/-- Modelled from the spec: the `collector` module (`crate::collector`) is
not under `src/`.  Spec §3 "Aggregate Record": four signed 64-bit
counters `alloc_objects`, `alloc_bytes`, `free_objects`, `free_bytes`. -/
structure MemProfileRecord where
  alloc_objects : Int
  alloc_bytes : Int
  free_objects : Int
  free_bytes : Int
deriving DecidableEq, Repr

/-- Modelled from the spec: a fresh Aggregate Record has zeroed counters. -/
def MemProfileRecord.zero : MemProfileRecord := ⟨0, 0, 0, 0⟩

/-- Modelled from the spec: derived `in_use_objects = alloc_objects − free_objects`. -/
def MemProfileRecord.in_use_objects (r : MemProfileRecord) : Int :=
  r.alloc_objects - r.free_objects

/-- Modelled from the spec: derived `in_use_bytes = alloc_bytes − free_bytes`. -/
def MemProfileRecord.in_use_bytes (r : MemProfileRecord) : Int :=
  r.alloc_bytes - r.free_bytes

/-- Modelled from the spec: `collector::Collector<K>` (§4.2) is a mapping
from Frame Buffer to Aggregate Record, keyed by the code's `Frames`
equality; modelled as an association list. -/
abbrev Collector (N : Nat) := List (Frames N × MemProfileRecord)

/-- Modelled from the spec (§4.2, `record`): if `net_bytes > 0` add
`(+1 object, +net_bytes)` to the alloc counters, if `net_bytes < 0` add
`(+1 object, +|net_bytes|)` to the free counters, `0` is a no-op. -/
def recordUpdate (rec : MemProfileRecord) (net : Int) : MemProfileRecord :=
  if net > 0 then
    { rec with alloc_objects := rec.alloc_objects + 1, alloc_bytes := rec.alloc_bytes + net }
  else if net < 0 then
    { rec with free_objects := rec.free_objects + 1, free_bytes := rec.free_bytes + (-net) }
  else rec

/-- Modelled from the spec (§4.2): `record(frames, net_bytes)` looks up the
entry for `frames` (absent entries are inserted with zeroed counters) and
applies `recordUpdate`. -/
def Collector.record {N : Nat} (c : Collector N) (k : Frames N) (net : Int) : Collector N :=
  if c.any fun e => Frames.beq e.1 k then
    c.map fun e => if Frames.beq e.1 k then (e.1, recordUpdate e.2 net) else e
  else
    c ++ [(k, recordUpdate MemProfileRecord.zero net)]

/-- `ProfilerBuffer` from profiler.rs: the Thread-Local Accumulator. -/
structure ProfilerBuffer where
  allocated_objects : Int
  allocated_bytes : Int
  freed_objects : Int
  freed_bytes : Int
  next_sample : Int
  period : Nat
deriving DecidableEq, Repr

/-- `ProfilerBuffer::new`: note that `next_sample` and `period` are
hard-coded to `1024 * 1024`; the session period is not a parameter. -/
def ProfilerBuffer.new : ProfilerBuffer :=
  { allocated_objects := 0, allocated_bytes := 0, freed_objects := 0, freed_bytes := 0,
    next_sample := 1024 * 1024, period := 1024 * 1024 }

/-- `ProfilerBuffer::track`: update the counters by the sign of `size`,
then, if either byte counter crosses `next_sample`, advance `next_sample`
by `period`. -/
def ProfilerBuffer.track (self : ProfilerBuffer) (size : Int) : ProfilerBuffer :=
  let self :=
    if size > 0 then
      { self with allocated_objects := self.allocated_objects + 1,
                  allocated_bytes := self.allocated_bytes + size }
    else if size < 0 then
      { self with freed_objects := self.freed_objects + 1,
                  freed_bytes := self.freed_bytes + (-size) }
    else self
  if self.allocated_bytes ≥ self.next_sample ∨ self.freed_bytes ≥ self.next_sample then
    { self with next_sample := self.next_sample + (self.period : Int) }
  else self

/-- `ProfilerBuffer::should_flush`. -/
def ProfilerBuffer.should_flush (self : ProfilerBuffer) : Bool :=
  decide (self.allocated_bytes ≥ self.next_sample) ||
    decide (self.freed_bytes ≥ self.next_sample)

/-- `ProfilerState<MAX_DEPTH>` from profiler.rs.  The `freed_*` fields and
`next_free_sample` are `cfg(feature = "measure_free")`-gated in the
source, but `ProfilerBuffer::flush` adds to `profiler.freed_objects` and
`profiler.freed_bytes` unconditionally, so the crate only compiles with
the feature on; the state is modelled with the feature enabled. -/
structure ProfilerState where
  collector : Collector 32
  allocated_objects : Int
  allocated_bytes : Int
  freed_objects : Int
  freed_bytes : Int
  next_sample : Int
  next_free_sample : Int
  period : Nat
deriving DecidableEq, Repr

/-- `ProfilerState::new(period)`. -/
def ProfilerState.new (period : Nat) : ProfilerState :=
  { collector := [], allocated_objects := 0, allocated_bytes := 0,
    freed_objects := 0, freed_bytes := 0,
    next_sample := (period : Int), next_free_sample := (period : Int), period := period }

/-- `ProfilerBuffer::flush`: add the buffered counters to the profiler
state, recompute this (cloned) buffer's `next_sample` from the net
change, and, when the net change is nonzero, capture a backtrace (the
machine stack is passed in as `stack`) and record it in the collector.
`none` models the `Frames::push` assertion firing. -/
def ProfilerBuffer.flush (self : ProfilerBuffer) (stack : List Frame)
    (profiler : ProfilerState) : Option (ProfilerBuffer × ProfilerState) :=
  let current_net_change := self.allocated_bytes - self.freed_bytes
  let profiler :=
    { profiler with
        allocated_objects := profiler.allocated_objects + self.allocated_objects,
        allocated_bytes := profiler.allocated_bytes + self.allocated_bytes,
        freed_objects := profiler.freed_objects + self.freed_objects,
        freed_bytes := profiler.freed_bytes + self.freed_bytes }
  let self :=
    if |current_net_change| ≥ self.next_sample then
      { self with next_sample := |current_net_change| + (self.period : Int) }
    else self
  if current_net_change ≠ 0 then
    match traceWalk (Frames.new 32) stack with
    | none => none
    | some bt =>
      some (self, { profiler with
                      collector := Collector.record profiler.collector bt current_net_change })
  else
    some (self, profiler)

/-- `ProfilerBuffer::reset_buffer`: zero the four counters (and nothing
else — `next_sample` and `period` are kept). -/
def ProfilerBuffer.reset_buffer (self : ProfilerBuffer) : ProfilerBuffer :=
  { self with allocated_objects := 0, allocated_bytes := 0,
              freed_objects := 0, freed_bytes := 0 }

/-- The error enum of profiler.rs. -/
inductive Error where
  | ConcurrentHeapProfiler
deriving DecidableEq, Repr

/-- One poll of an async call at a moment when the relevant lock state is
known: the future either completes with a value or is still pending
(suspended on an `.await`). -/
inductive Poll (α : Type) where
  | ready (a : α)
  | pending
deriving DecidableEq, Repr

/-- `HeapProfilerGuard::new(period)`: `HEAP_PROFILER_ENTER.lock().await`
followed by `Profiler::start(period).await; Ok(...)`.  A tokio
`Mutex::lock().await` completes at once when the mutex is free and
suspends when it is held by a live guard; it cannot fail.  The body never
constructs `Error::ConcurrentHeapProfiler` (no code in the crate does). -/
def heapProfilerGuardNew (lockHeld : Bool) : Poll (Except Error Unit) :=
  if lockHeld then .pending else .ready (.ok ())

/-- `Profiler::stop` (also `impl Drop for HeapProfilerGuard`): stores
`false` into `HEAP_PROFILER_ENABLED` unconditionally.  The argument is
the previous flag value, the result the stored one. -/
def profilerStop (enabled : Bool) : Bool := false

/-- The per-thread state touched by `Profiler::track_allocated`: the
`ENTERED` cell and the `BUFFER` thread-local. -/
structure ThreadState where
  entered : Bool
  buffer : ProfilerBuffer
deriving DecidableEq, Repr

/-- Observation of one call to `Profiler::track_allocated`.
`enteredDuring` is the value the `ENTERED` cell holds while the guarded
body runs — i.e. what a nested `track_allocated` issued from inside the
body (stack capture, `tokio::spawn`, …) would read; it is `none` when the
body was skipped because the initial `entered.get()` returned `true`.
`spawned` is the cloned buffer handed to `tokio::spawn` for an
asynchronous flush, if any. -/
structure TrackResult where
  enteredDuring : Option Bool
  final : ThreadState
  spawned : Option ProfilerBuffer
deriving DecidableEq, Repr

/-- `Profiler::track_allocated(size)`.  Note: the source reads the cell
into the local `entered_guard`, and the assignment `entered_guard = true`
mutates only that local — no `entered.set(true)` is ever executed — so
the cell keeps its prior value throughout the body; `ResetOnDrop` stores
`false` on every exit path of the body. -/
def trackAllocated (enabled : Bool) (size : Int) (ts : ThreadState) : TrackResult :=
  if ts.entered then
    { enteredDuring := none, final := ts, spawned := none }
  else
    -- `entered_guard = true` (local variable only); the ENTERED cell
    -- still holds `ts.entered` while the body below runs.
    let cellDuring := ts.entered
    if enabled then
      let buffer := ts.buffer.track size
      if buffer.should_flush then
        let passed_buffer := buffer
        let buffer := buffer.reset_buffer
        { enteredDuring := some cellDuring,
          final := { entered := false, buffer := buffer },
          spawned := some passed_buffer }
      else
        { enteredDuring := some cellDuring,
          final := { entered := false, buffer := buffer },
          spawned := none }
    else
      { enteredDuring := some cellDuring,
        final := { entered := false, buffer := ts.buffer },
        spawned := none }

/-- One `on_alloc_event`: run `track_allocated` and, if it scheduled a
flush task, run that task to completion against the profiler state (the
task's modified clone `passed_buffer` is dropped when the task ends). -/
def onAllocEvent (enabled : Bool) (stack : List Frame) (ts : ThreadState)
    (st : ProfilerState) (size : Int) : Option (ThreadState × ProfilerState) :=
  let r := trackAllocated enabled size ts
  match r.spawned with
  | none => some (r.final, st)
  | some passed_buffer =>
    match passed_buffer.flush stack st with
    | none => none
    | some (_, st2) => some (r.final, st2)

/-- A whole single-threaded session: `start(period)` (fresh
`ProfilerState`, enable flag set), a fresh thread-local buffer
(`ProfilerBuffer::new`), the given allocation events, then `report()`
(which moves the collector out of the state).  All scheduled flushes are
applied; the report's samples are the collector entries. -/
def runSession (period : Nat) (events : List Int) (stack : List Frame) :
    Option (Collector 32) := do
  let st0 := ProfilerState.new period
  let init : ThreadState := { entered := false, buffer := ProfilerBuffer.new }
  let (_, st) ← events.foldlM
    (fun (p : ThreadState × ProfilerState) size => onAllocEvent true stack p.1 p.2 size)
    (init, st0)
  pure st.collector

/-! ### The pprof assembly (`HeapReport::inner_pprof` / `HeapReport::pprof`)

A `HeapReport` holds `data: HashMap<pprof::Frames, MemProfileRecord>` and
the session `period`.  Iterating the *same* `HashMap` instance twice
yields the same order, so the report's data is modelled as a list.  The
`dudup_str: HashSet<String>` built inside `inner_pprof` is freshly seeded
on every call; its iteration order is modelled as an explicit `order`
argument (any duplicate-free enumeration of the collected strings). -/

/-- `pprof::Symbol` as consumed by `inner_pprof`: resolved name, system
name, filename and line number (the accessors' fallback strings are
folded into the fields). -/
structure Symbol where
  name : String
  sys_name : String
  filename : String
  lineno : Nat
deriving DecidableEq, Repr

/-- `pprof::Frames`: per raw frame, the list of resolved symbols. -/
structure PFrames where
  frames : List (List Symbol)
deriving DecidableEq, Repr

/-- `pprof::protos::Function` (string fields hold string-table indices). -/
structure Function where
  id : Nat
  name : Nat
  system_name : Nat
  filename : Nat
deriving DecidableEq, Repr

/-- `pprof::protos::Line`. -/
structure Line where
  function_id : Nat
  line : Nat
deriving DecidableEq, Repr

/-- `pprof::protos::Location`. -/
structure Location where
  id : Nat
  line : List Line
deriving DecidableEq, Repr

/-- `pprof::protos::ValueType` (`ty`/`unit` are string-table indices). -/
structure ValueType where
  ty : Nat
  unit : Nat
deriving DecidableEq, Repr

/-- `pprof::protos::Sample` (the fields `inner_pprof` populates). -/
structure Sample where
  location_id : List Nat
  value : List Int
deriving DecidableEq, Repr

/-- `pprof::protos::Profile` (the fields `inner_pprof`/`pprof` populate). -/
structure Profile where
  sample_type : List ValueType
  default_sample_type : Nat
  sample : List Sample
  string_table : List String
  period_type : ValueType
  period : Int
  function : List Function
  location : List Location
  drop_frames : Nat
deriving DecidableEq, Repr

/-- The three strings `inner_pprof` inserts into `dudup_str` per symbol:
`symbol.name()`, `symbol.sys_name()`, `symbol.filename()`. -/
def symbolStrings (s : Symbol) : List String := [s.name, s.sys_name, s.filename]

/-- All strings inserted into `dudup_str` over the report's data. -/
def collectedStrings (data : List (PFrames × MemProfileRecord)) : List String :=
  data.flatMap fun e => e.1.frames.flatMap fun fr => fr.flatMap symbolStrings

/-- `order` is a possible iteration order of the `dudup_str` hash set:
each collected string exactly once, nothing else. -/
def validOrder (data : List (PFrames × MemProfileRecord)) (order : List String) : Prop :=
  order.Nodup ∧ (∀ s ∈ collectedStrings data, s ∈ order) ∧
    ∀ s ∈ order, s ∈ collectedStrings data

/-- The `strings` map of `inner_pprof`: built by inserting
`(name, index)` for every string-table entry in order, so a lookup
returns the index of the *last* occurrence of the string. -/
def stringsGet (tbl : List String) (s : String) : Option Nat :=
  ((List.range tbl.length).reverse).find? fun i => tbl.get? i == some s

/-- The `push_string` closure: append and return the old length. -/
def pushString (tbl : List String) (s : String) : List String × Nat :=
  (tbl ++ [s], tbl.length)

/-- The mutable state of `inner_pprof`'s sample loop: the location table,
the function table, and the `functions : HashMap<name, function_id>`
(modelled as an association list with the newest binding first). -/
structure BuildSt where
  loc_tbl : List Location
  fn_tbl : List Function
  functions : List (String × Nat)
deriving DecidableEq, Repr

/-- Initial loop state: all three tables empty. -/
def BuildSt.empty : BuildSt := ⟨[], [], []⟩

/-- Lookup in the `functions` hash map. -/
def assocFind (l : List (String × Nat)) (k : String) : Option Nat :=
  (l.find? fun e => e.1 == k).map fun e => e.2

/-- Body of the innermost loop of `inner_pprof` (one resolved symbol):
reuse the function id when the name was seen before, otherwise allocate
`function_id = fn_tbl.len() + 1`, look the three strings up in `strings`
(`unwrap` modelled as `Option` failure), and append the new function,
line and location. -/
def processSymbol (tbl : List String) (acc : BuildSt × List Nat) (symbol : Symbol) :
    Option (BuildSt × List Nat) :=
  let (st, locs) := acc
  match assocFind st.functions symbol.name with
  | some loc_idx => some (st, locs ++ [loc_idx])
  | none =>
    (stringsGet tbl symbol.name).bind fun nameIdx =>
      (stringsGet tbl symbol.sys_name).bind fun sysIdx =>
        (stringsGet tbl symbol.filename).bind fun fileIdx =>
          let function_id := st.fn_tbl.length + 1
          let function : Function :=
            { id := function_id, name := nameIdx, system_name := sysIdx, filename := fileIdx }
          let line : Line := { function_id := function_id, line := symbol.lineno }
          let loc : Location := { id := function_id, line := [line] }
          some ({ loc_tbl := st.loc_tbl ++ [loc],
                  fn_tbl := st.fn_tbl ++ [function],
                  functions := (symbol.name, function_id) :: st.functions },
                locs ++ [function_id])

/-- `Sample.value`: the `cfg(feature = "measure_free")` variant has six
entries, the other two. -/
def sampleValue (measureFree : Bool) (rec : MemProfileRecord) : List Int :=
  if measureFree then
    [rec.alloc_objects, rec.alloc_bytes, rec.free_objects, rec.free_bytes,
     rec.in_use_objects, rec.in_use_bytes]
  else
    [rec.alloc_objects, rec.alloc_bytes]

/-- One `(key, rec)` iteration of the sample loop: process every symbol of
every frame of the key, in order, starting from an empty `locs`. -/
def processKey (tbl : List String) (st : BuildSt) (key : PFrames) :
    Option (BuildSt × List Nat) :=
  (key.frames.flatMap fun fr => fr).foldlM (processSymbol tbl) (st, [])

/-- One iteration of the outer sample loop: process the key, then append
the sample built from its location ids and the record's value vector. -/
def buildStep (measureFree : Bool) (tbl : List String) (acc : BuildSt × List Sample)
    (e : PFrames × MemProfileRecord) : Option (BuildSt × List Sample) :=
  (processKey tbl acc.1 e.1).map fun r =>
    (r.1, acc.2 ++ [{ location_id := r.2, value := sampleValue measureFree e.2 }])

/-- The whole sample loop of `inner_pprof`. -/
def buildSamples (measureFree : Bool) (tbl : List String)
    (data : List (PFrames × MemProfileRecord)) : Option (BuildSt × List Sample) :=
  data.foldlM (buildStep measureFree tbl) (BuildSt.empty, [])

/-- `HeapReport::inner_pprof`, for a report with the given data and
session `period`, with the `dudup_str` iteration order passed in as
`order` and the `measure_free` cfg as `measureFree`. -/
def innerPprof (measureFree : Bool) (data : List (PFrames × MemProfileRecord))
    (order : List String) (period : Nat) : Option Profile :=
  let string_table := "" :: order
  match buildSamples measureFree string_table data with
  | none => none
  | some (st, samples) =>
    let (t1, alloc_objects_idx) := pushString string_table "alloc_objects"
    let (t2, count_idx) := pushString t1 "count"
    let (t3, alloc_space_idx) := pushString t2 "alloc_space"
    let (t4, bytes_idx) := pushString t3 "bytes"
    let (t5, freeIdxs) :=
      if measureFree then
        let (ta, free_objects_idx) := pushString t4 "free_objects"
        let (tb, free_space_idx) := pushString ta "free_space"
        let (tc, inuse_objects_idx) := pushString tb "inuse_objects"
        let (td, inuse_space_idx) := pushString tc "inuse_space"
        (td, some (free_objects_idx, free_space_idx, inuse_objects_idx, inuse_space_idx))
      else (t4, none)
    let (t6, space_idx) := pushString t5 "space"
    let sample_type :=
      [ ValueType.mk alloc_objects_idx count_idx,
        ValueType.mk alloc_space_idx bytes_idx ] ++
      (match freeIdxs with
       | some (fo, fs, io, iu) =>
         [ ValueType.mk fo count_idx,
           ValueType.mk fs count_idx,   -- the source gives free_space the unit `count`
           ValueType.mk io count_idx,
           ValueType.mk iu bytes_idx ]
       | none => [])
    some { sample_type := sample_type,
           default_sample_type := alloc_space_idx,
           sample := samples,
           string_table := t6,
           period_type := ValueType.mk space_idx bytes_idx,
           period := (period : Int),
           function := st.fn_tbl,
           location := st.loc_tbl,
           drop_frames := 0 }

/-- `HeapReport::pprof`: `inner_pprof`, then append the drop-frames regex
string and point `drop_frames` at it. -/
def pprof (measureFree : Bool) (data : List (PFrames × MemProfileRecord))
    (order : List String) (period : Nat) : Option Profile :=
  (innerPprof measureFree data order period).map fun proto =>
    let drop_frames_idx := proto.string_table.length
    { proto with
        string_table := proto.string_table ++ [".*::Profiler::track_allocated"],
        drop_frames := drop_frames_idx }

/-- Deciding `validOrder` (all three conjuncts are list-bounded). -/
instance (data : List (PFrames × MemProfileRecord)) (order : List String) :
    Decidable (validOrder data order) := by
  unfold validOrder
  exact inferInstance

/-- The strings `inner_pprof` appends after the sample loop, in push
order (`cfg(measure_free)` selects the middle block). -/
def mfTail (mf : Bool) : List String :=
  ["alloc_objects", "count", "alloc_space", "bytes"] ++
    (if mf then ["free_objects", "free_space", "inuse_objects", "inuse_space"] else []) ++
    ["space"]

/-- The `sample_type` vector produced by `inner_pprof` when the table had
length `L` before the pushes (so `alloc_objects` lands at index `L`). -/
def mfSampleType (L : Nat) (mf : Bool) : List ValueType :=
  [⟨L, L + 1⟩, ⟨L + 2, L + 3⟩] ++
    (if mf then [⟨L + 4, L + 1⟩, ⟨L + 5, L + 1⟩, ⟨L + 6, L + 1⟩, ⟨L + 7, L + 3⟩] else [])

/-- Well-formedness of an emitted Profile, as claimed by the spec: string
table element 0 is the empty string, every sample's value vector has the
`sample_type` length, all referenced string indices are in range, every
sample's location ids and every line's function id resolve, the period
type is `(space, bytes)`, the period is the session period, and
`default_sample_type` references `alloc_space`. -/
def wellFormed (p : Profile) (sessionPeriod : Nat) : Prop :=
  p.string_table.get? 0 = some "" ∧
  (∀ s ∈ p.sample, s.value.length = p.sample_type.length) ∧
  (∀ f ∈ p.function, f.name < p.string_table.length ∧
    f.system_name < p.string_table.length ∧ f.filename < p.string_table.length) ∧
  (∀ vt ∈ p.sample_type, vt.ty < p.string_table.length ∧ vt.unit < p.string_table.length) ∧
  p.default_sample_type < p.string_table.length ∧
  p.drop_frames < p.string_table.length ∧
  (∀ s ∈ p.sample, ∀ lid ∈ s.location_id, ∃ loc ∈ p.location, loc.id = lid) ∧
  (∀ loc ∈ p.location, ∀ ln ∈ loc.line, ∃ f ∈ p.function, f.id = ln.function_id) ∧
  p.string_table.get? p.period_type.ty = some "space" ∧
  p.string_table.get? p.period_type.unit = some "bytes" ∧
  p.period = (sessionPeriod : Int) ∧
  p.string_table.get? p.default_sample_type = some "alloc_space"

/-- The spec's claimed `next_sample` update at a flush (claim C4): advance
to `|net| + period` when `|net|` is at least the current threshold,
otherwise by `period`.  Defined from the spec's words, for comparison
with the code. -/
def specNextSample (cur net : Int) (period : Nat) : Int :=
  if |net| ≥ cur then |net| + (period : Int) else cur + (period : Int)

/-- The invariant of `inner_pprof`'s sample-loop state: every id recorded
in `functions` is the id of a location in the location table, every
line's function id is the id of a function in the function table, and all
function string indices are below the string-table length `L`. -/
def stInv (L : Nat) (st : BuildSt) : Prop :=
  (∀ pr ∈ st.functions, ∃ loc ∈ st.loc_tbl, loc.id = pr.2) ∧
  (∀ loc ∈ st.loc_tbl, ∀ ln ∈ loc.line, ∃ f ∈ st.fn_tbl, f.id = ln.function_id) ∧
  (∀ f ∈ st.fn_tbl, f.name < L ∧ f.system_name < L ∧ f.filename < L)

/-- The parts of the sample-loop accumulator that do not depend on the
string table: the `functions` map, the location table, the length of the
function table and the sample's location ids. -/
def loopRel (a b : BuildSt × List Nat) : Prop :=
  a.1.functions = b.1.functions ∧ a.1.loc_tbl = b.1.loc_tbl ∧
  a.1.fn_tbl.length = b.1.fn_tbl.length ∧ a.2 = b.2

/-- The same relation for the outer loop's accumulator (state plus the
samples built so far). -/
def buildRel (a b : BuildSt × List Sample) : Prop :=
  a.1.functions = b.1.functions ∧ a.1.loc_tbl = b.1.loc_tbl ∧
  a.1.fn_tbl.length = b.1.fn_tbl.length ∧ a.2 = b.2

/-! ### Shared lemmas -/

lemma get?_append_plus (pre post : List String) (k : Nat) :
    (pre ++ post).get? (pre.length + k) = post.get? k := by
  induction pre with
  | nil => simp
  | cons a pre ih => simpa [Nat.succ_add] using ih

lemma get?_append_lt (pre post : List String) (k : Nat) (h : k < pre.length) :
    (pre ++ post).get? k = pre.get? k := by
  induction pre generalizing k with
  | nil => simp at h
  | cons a pre ih =>
    cases k with
    | zero => simp
    | succ k => simpa using ih k (by simpa using h)

lemma stringsGet_lt {tbl : List String} {s : String} {i : Nat}
    (h : stringsGet tbl s = some i) : i < tbl.length := by
  unfold stringsGet at h
  have := List.find?_some h
  have hmem := List.mem_of_find?_eq_some h
  rw [List.mem_reverse, List.mem_range] at hmem
  exact hmem

lemma stringsGet_isSome_of_mem {tbl : List String} {s : String} (h : s ∈ tbl) :
    (stringsGet tbl s).isSome := by
  obtain ⟨i, hi⟩ := List.mem_iff_get?.mp h
  have hlt : i < tbl.length := by
    have := List.get?_eq_some.mp hi
    exact this.1
  unfold stringsGet
  cases hfind : ((List.range tbl.length).reverse).find? fun j => tbl.get? j == some s with
  | some v => simp
  | none =>
    exfalso
    have := List.find?_eq_none.mp hfind i (by simp [List.mem_reverse, List.mem_range, hlt])
    rw [List.get?_eq_getElem?] at hi
    simp [hi] at this

lemma track_bump (buf : ProfilerBuffer) (size : Int)
    (h : (buf.track size).should_flush = true) :
    (buf.track size).next_sample = buf.next_sample + (buf.period : Int) := by
  unfold ProfilerBuffer.track at h ⊢
  by_cases h1 : size > 0 <;> by_cases h2 : size < 0
  · exact absurd h2 (by omega)
  all_goals
    simp only [h1, h2, if_true, if_false] at h ⊢
  all_goals split at h
  all_goals
    first
      | (rename_i hc
         rw [if_neg hc]
         unfold ProfilerBuffer.should_flush at h
         simp only [Bool.or_eq_true, decide_eq_true_eq] at h
         exact absurd h hc)
      | (rename_i hc
         rw [if_pos hc])

lemma zip_all_addr_iff : ∀ (xs ys : List Frame), xs.length = ys.length →
    ((((xs.zip ys).map fun p => p.1.symbol_address == p.2.symbol_address).all fun e => e) = true
      ↔ xs.map (fun f => f.symbol_address) = ys.map (fun f => f.symbol_address)) := by
  intro xs
  induction xs with
  | nil =>
    intro ys h
    cases ys with
    | nil => simp
    | cons y ys => simp at h
  | cons x xs ih =>
    intro ys h
    cases ys with
    | nil => simp at h
    | cons y ys =>
      have hrec := ih ys (by simpa using h)
      simp only [List.zip_cons_cons, List.map_cons, List.all_cons, Bool.and_eq_true,
        beq_iff_eq, List.cons.injEq]
      exact and_congr Iff.rfl hrec

lemma traceWalk_some {N : Nat} (stack : List Frame) : ∀ bt : Frames N,
    bt.frames.length < N →
    ∃ bt2, traceWalk bt stack = some bt2 ∧ bt2.frames.length ≤ N := by
  induction stack with
  | nil => exact fun bt h => ⟨bt, rfl, Nat.le_of_lt h⟩
  | cons fr rest ih =>
    intro bt h
    have hpush : bt.push fr
        = some ({ bt with frames := bt.frames ++ [fr] },
                decide (({ bt with frames := bt.frames ++ [fr] } : Frames N).frames.length < N)) := by
      unfold Frames.push
      rw [if_pos h]
    by_cases h2 : bt.frames.length + 1 < N
    · obtain ⟨bt2, hw, hlen⟩ := ih { bt with frames := bt.frames ++ [fr] } (by simpa using h2)
      refine ⟨bt2, ?_, hlen⟩
      unfold traceWalk
      rw [hpush]
      simpa [h2] using hw
    · refine ⟨{ bt with frames := bt.frames ++ [fr] }, ?_, ?_⟩
      · unfold traceWalk
        rw [hpush]
        simp [h2]
      · simp only [List.length_append, List.length_cons, List.length_nil]
        omega

lemma sampleValue_length (mf : Bool) (rec : MemProfileRecord) :
    (sampleValue mf rec).length = if mf then 6 else 2 := by
  cases mf <;> simp [sampleValue]

lemma mfTail_length (mf : Bool) : (mfTail mf).length = if mf then 9 else 5 := by
  cases mf <;> simp [mfTail]

lemma mfSampleType_length (L : Nat) (mf : Bool) :
    (mfSampleType L mf).length = if mf then 6 else 2 := by
  cases mf <;> simp [mfSampleType]

lemma mfSampleType_bound (L : Nat) (mf : Bool) :
    ∀ vt ∈ mfSampleType L mf,
      vt.ty < L + (if mf then 9 else 5) ∧ vt.unit < L + (if mf then 9 else 5) := by
  intro vt hvt
  cases mf
  · simp [mfSampleType] at hvt
    rcases hvt with rfl | rfl <;> refine ⟨by simp, by simp⟩
  · simp [mfSampleType] at hvt
    rcases hvt with rfl | rfl | rfl | rfl | rfl | rfl <;> refine ⟨by simp, by simp⟩

lemma innerPprof_eq (mf : Bool) (data : List (PFrames × MemProfileRecord))
    (order : List String) (period : Nat) (st : BuildSt) (samples : List Sample)
    (hb : buildSamples mf ("" :: order) data = some (st, samples)) :
    innerPprof mf data order period = some
      { sample_type := mfSampleType (order.length + 1) mf,
        default_sample_type := order.length + 3,
        sample := samples,
        string_table := ("" :: order) ++ mfTail mf,
        period_type := ⟨order.length + 1 + (if mf then 8 else 4), order.length + 4⟩,
        period := (period : Int),
        function := st.fn_tbl,
        location := st.loc_tbl,
        drop_frames := 0 } := by
  cases mf <;>
    simp [innerPprof, hb, pushString, mfTail, mfSampleType]

lemma mem_collectedStrings {data : List (PFrames × MemProfileRecord)}
    {e : PFrames × MemProfileRecord} {fr : List Symbol} {sym : Symbol}
    (he : e ∈ data) (hfr : fr ∈ e.1.frames) (hs : sym ∈ fr) :
    sym.name ∈ collectedStrings data ∧ sym.sys_name ∈ collectedStrings data ∧
      sym.filename ∈ collectedStrings data := by
  unfold collectedStrings
  refine ⟨?_, ?_, ?_⟩ <;>
    (rw [List.mem_flatMap]
     refine ⟨e, he, ?_⟩
     rw [List.mem_flatMap]
     refine ⟨fr, hfr, ?_⟩
     rw [List.mem_flatMap]
     exact ⟨sym, hs, by simp [symbolStrings]⟩)

lemma assocFind_some {l : List (String × Nat)} {k : String} {i : Nat}
    (h : assocFind l k = some i) : ∃ pr ∈ l, pr.2 = i := by
  unfold assocFind at h
  cases hf : l.find? fun e => e.1 == k with
  | none => rw [hf] at h; simp at h
  | some e =>
    rw [hf] at h
    simp at h
    exact ⟨e, List.mem_of_find?_eq_some hf, h⟩

lemma processSymbol_inv (tbl : List String) (st : BuildSt) (locs : List Nat) (sym : Symbol)
    (hinv : stInv tbl.length st)
    (hname : sym.name ∈ tbl) (hsys : sym.sys_name ∈ tbl) (hfile : sym.filename ∈ tbl)
    (hlocs : ∀ lid ∈ locs, ∃ loc ∈ st.loc_tbl, loc.id = lid) :
    ∃ st2 locs2, processSymbol tbl (st, locs) sym = some (st2, locs2) ∧
      stInv tbl.length st2 ∧
      (∀ loc ∈ st.loc_tbl, loc ∈ st2.loc_tbl) ∧
      (∀ lid ∈ locs2, ∃ loc ∈ st2.loc_tbl, loc.id = lid) := by
  obtain ⟨hfn, hline, hstr⟩ := hinv
  unfold processSymbol
  dsimp only
  cases hma : assocFind st.functions sym.name with
  | some i =>
    refine ⟨st, locs ++ [i], rfl, ⟨hfn, hline, hstr⟩, fun loc hl => hl, ?_⟩
    intro lid hl
    rcases List.mem_append.mp hl with h | h
    · exact hlocs lid h
    · rw [List.mem_singleton] at h
      subst h
      obtain ⟨pr, hpr, hpr2⟩ := assocFind_some hma
      exact hpr2 ▸ hfn pr hpr
  | none =>
    obtain ⟨n1, hn1⟩ := Option.isSome_iff_exists.mp (stringsGet_isSome_of_mem hname)
    obtain ⟨n2, hn2⟩ := Option.isSome_iff_exists.mp (stringsGet_isSome_of_mem hsys)
    obtain ⟨n3, hn3⟩ := Option.isSome_iff_exists.mp (stringsGet_isSome_of_mem hfile)
    rw [hn1, hn2, hn3]
    refine ⟨_, _, rfl, ⟨?_, ?_, ?_⟩, ?_, ?_⟩
    · intro pr hpr
      rcases List.mem_cons.mp hpr with h | h
      · subst h
        exact ⟨{ id := st.fn_tbl.length + 1,
                 line := [{ function_id := st.fn_tbl.length + 1, line := sym.lineno }] },
               by simp, rfl⟩
      · obtain ⟨loc, hl, hid⟩ := hfn pr h
        exact ⟨loc, by simp [hl], hid⟩
    · intro loc hl ln hln
      rcases List.mem_append.mp hl with h | h
      · obtain ⟨f, hf, hid⟩ := hline loc h ln hln
        exact ⟨f, by simp [hf], hid⟩
      · rw [List.mem_singleton] at h
        subst h
        simp only [List.mem_singleton] at hln
        subst hln
        exact ⟨{ id := st.fn_tbl.length + 1, name := n1, system_name := n2, filename := n3 },
               by simp, rfl⟩
    · intro f hf
      rcases List.mem_append.mp hf with h | h
      · exact hstr f h
      · rw [List.mem_singleton] at h
        subst h
        exact ⟨stringsGet_lt hn1, stringsGet_lt hn2, stringsGet_lt hn3⟩
    · intro loc hl
      simp [hl]
    · intro lid hl
      rcases List.mem_append.mp hl with h | h
      · obtain ⟨loc, hloc, hid⟩ := hlocs lid h
        exact ⟨loc, by simp [hloc], hid⟩
      · rw [List.mem_singleton] at h
        subst h
        exact ⟨{ id := st.fn_tbl.length + 1,
                 line := [{ function_id := st.fn_tbl.length + 1, line := sym.lineno }] },
               by simp, rfl⟩

lemma foldSymbols_inv (tbl : List String) : ∀ (syms : List Symbol) (st : BuildSt) (locs : List Nat),
    stInv tbl.length st →
    (∀ sym ∈ syms, sym.name ∈ tbl ∧ sym.sys_name ∈ tbl ∧ sym.filename ∈ tbl) →
    (∀ lid ∈ locs, ∃ loc ∈ st.loc_tbl, loc.id = lid) →
    ∃ st2 locs2, syms.foldlM (processSymbol tbl) (st, locs) = some (st2, locs2) ∧
      stInv tbl.length st2 ∧
      (∀ loc ∈ st.loc_tbl, loc ∈ st2.loc_tbl) ∧
      (∀ lid ∈ locs2, ∃ loc ∈ st2.loc_tbl, loc.id = lid) := by
  intro syms
  induction syms with
  | nil =>
    intro st locs h1 h2 h3
    exact ⟨st, locs, rfl, h1, fun l h => h, h3⟩
  | cons s syms ih =>
    intro st locs h1 h2 h3
    obtain ⟨st1, locs1, hstep, hinv1, hsub1, hlocs1⟩ :=
      processSymbol_inv tbl st locs s h1 (h2 s (by simp)).1 (h2 s (by simp)).2.1
        (h2 s (by simp)).2.2 h3
    obtain ⟨st2, locs2, hfold, hinv2, hsub2, hlocs2⟩ :=
      ih st1 locs1 hinv1 (fun sym h => h2 sym (by simp [h])) hlocs1
    refine ⟨st2, locs2, ?_, hinv2, fun l hl => hsub2 l (hsub1 l hl), hlocs2⟩
    rw [List.foldlM_cons, hstep]
    simpa using hfold

lemma buildFold_inv (mf : Bool) (tbl : List String) :
    ∀ (data : List (PFrames × MemProfileRecord)) (st : BuildSt) (samples : List Sample),
    stInv tbl.length st →
    (∀ e ∈ data, ∀ fr ∈ e.1.frames, ∀ sym ∈ fr,
      sym.name ∈ tbl ∧ sym.sys_name ∈ tbl ∧ sym.filename ∈ tbl) →
    (∀ smp ∈ samples, (∀ lid ∈ smp.location_id, ∃ loc ∈ st.loc_tbl, loc.id = lid) ∧
      smp.value.length = if mf then 6 else 2) →
    ∃ st2 samples2, data.foldlM (buildStep mf tbl) (st, samples) = some (st2, samples2) ∧
      stInv tbl.length st2 ∧
      (∀ smp ∈ samples2, (∀ lid ∈ smp.location_id, ∃ loc ∈ st2.loc_tbl, loc.id = lid) ∧
        smp.value.length = if mf then 6 else 2) := by
  intro data
  induction data with
  | nil =>
    intro st samples h1 h2 h3
    exact ⟨st, samples, rfl, h1, h3⟩
  | cons e data ih =>
    intro st samples h1 h2 h3
    have hmemsyms : ∀ sym ∈ (e.1.frames.flatMap fun fr => fr),
        sym.name ∈ tbl ∧ sym.sys_name ∈ tbl ∧ sym.filename ∈ tbl := by
      intro sym hs
      rw [List.mem_flatMap] at hs
      obtain ⟨fr, hfr, hsym⟩ := hs
      exact h2 e (by simp) fr hfr sym hsym
    obtain ⟨st1, locs1, hkey, hinv1, hsub1, hlocs1⟩ :=
      foldSymbols_inv tbl (e.1.frames.flatMap fun fr => fr) st [] h1 hmemsyms (by simp)
    have hsampmid :
        ∀ smp ∈ samples ++ [({ location_id := locs1, value := sampleValue mf e.2 } : Sample)],
        (∀ lid ∈ smp.location_id, ∃ loc ∈ st1.loc_tbl, loc.id = lid) ∧
        smp.value.length = if mf then 6 else 2 := by
      intro smp hs
      rcases List.mem_append.mp hs with h | h
      · obtain ⟨ha, hb⟩ := h3 smp h
        exact ⟨fun lid hl => by
          obtain ⟨loc, hloc, hid⟩ := ha lid hl
          exact ⟨loc, hsub1 loc hloc, hid⟩, hb⟩
      · rw [List.mem_singleton] at h
        subst h
        exact ⟨hlocs1, sampleValue_length mf e.2⟩
    obtain ⟨st2, samples2, hfold, hinv2, hsamp2⟩ :=
      ih st1 (samples ++ [{ location_id := locs1, value := sampleValue mf e.2 }]) hinv1
        (fun e' h' => h2 e' (by simp [h'])) hsampmid
    refine ⟨st2, samples2, ?_, hinv2, hsamp2⟩
    rw [List.foldlM_cons]
    have hstep : buildStep mf tbl (st, samples) e
        = some (st1, samples ++ [{ location_id := locs1, value := sampleValue mf e.2 }]) := by
      unfold buildStep processKey
      rw [hkey]
      rfl
    rw [hstep]
    simpa using hfold

lemma buildSamples_inv (mf : Bool) (tbl : List String)
    (data : List (PFrames × MemProfileRecord))
    (hmem : ∀ e ∈ data, ∀ fr ∈ e.1.frames, ∀ sym ∈ fr,
      sym.name ∈ tbl ∧ sym.sys_name ∈ tbl ∧ sym.filename ∈ tbl) :
    ∃ st2 samples2, buildSamples mf tbl data = some (st2, samples2) ∧
      stInv tbl.length st2 ∧
      (∀ smp ∈ samples2, (∀ lid ∈ smp.location_id, ∃ loc ∈ st2.loc_tbl, loc.id = lid) ∧
        smp.value.length = if mf then 6 else 2) := by
  have h0 : stInv tbl.length BuildSt.empty := by
    refine ⟨?_, ?_, ?_⟩ <;> simp [BuildSt.empty]
  exact buildFold_inv mf tbl data BuildSt.empty [] h0 hmem (by simp)

lemma wellFormed_assembled (mf : Bool) (order : List String) (period : Nat)
    (st : BuildSt) (samples : List Sample)
    (hinv : stInv (order.length + 1) st)
    (hsamp : ∀ smp ∈ samples, (∀ lid ∈ smp.location_id, ∃ loc ∈ st.loc_tbl, loc.id = lid) ∧
      smp.value.length = if mf then 6 else 2) :
    wellFormed
      { sample_type := mfSampleType (order.length + 1) mf,
        default_sample_type := order.length + 3,
        sample := samples,
        string_table := (("" :: order) ++ mfTail mf) ++ [".*::Profiler::track_allocated"],
        period_type := ⟨order.length + 1 + (if mf then 8 else 4), order.length + 4⟩,
        period := (period : Int),
        function := st.fn_tbl,
        location := st.loc_tbl,
        drop_frames := (("" :: order) ++ mfTail mf).length } period := by
  obtain ⟨hfn, hline, hstr⟩ := hinv
  unfold wellFormed
  refine ⟨rfl, ?_, ?_, ?_, ?_, ?_, fun s hs => (hsamp s hs).1, hline, ?_, ?_, rfl, ?_⟩
  · intro s hs
    simp [mfSampleType_length, (hsamp s hs).2]
  · intro f hf
    have h3 := hstr f hf
    refine ⟨?_, ?_, ?_⟩ <;> (cases mf <;> simp [mfTail] <;> omega)
  · intro vt hvt
    have hb := mfSampleType_bound (order.length + 1) mf vt hvt
    cases mf <;> simp [mfTail] at hb ⊢ <;> omega
  · cases mf <;> simp [mfTail]
  · simp
  · cases mf
    · have h4 : order.length + 1 + (if false then 8 else 4) = order.length + 1 + 4 := by simp
      dsimp only
      rw [h4, List.append_assoc]
      have hp := get?_append_plus ("" :: order) (mfTail false ++ [".*::Profiler::track_allocated"]) 4
      simp only [List.length_cons] at hp
      rw [hp]
      rfl
    · have h4 : order.length + 1 + (if true then 8 else 4) = order.length + 1 + 8 := by simp
      dsimp only
      rw [h4, List.append_assoc]
      have hp := get?_append_plus ("" :: order) (mfTail true ++ [".*::Profiler::track_allocated"]) 8
      simp only [List.length_cons] at hp
      rw [hp]
      rfl
  · have h4 : order.length + 4 = order.length + 1 + 3 := by omega
    dsimp only
    rw [h4, List.append_assoc]
    have hp := get?_append_plus ("" :: order) (mfTail mf ++ [".*::Profiler::track_allocated"]) 3
    simp only [List.length_cons] at hp
    rw [hp]
    cases mf <;> rfl
  · have h4 : order.length + 3 = order.length + 1 + 2 := by omega
    dsimp only
    rw [h4, List.append_assoc]
    have hp := get?_append_plus ("" :: order) (mfTail mf ++ [".*::Profiler::track_allocated"]) 2
    simp only [List.length_cons] at hp
    rw [hp]
    cases mf <;> rfl

/-! ### The claims -/

/-- Claim C1: the code's behaviour at the claim's input.  After `start(1)`
the thread-local accumulator is created by `ProfilerBuffer::new` with
`next_sample = period = 1 MiB` — the session period 1 is never copied
into it — so a single `on_alloc_event(+100)` crosses no threshold, no
flush is scheduled, and `report()` holds zero samples instead of the
claimed one sample with `alloc_objects = 1, alloc_bytes = 100`. -/
theorem C1_theorem :
    runSession 1 [100] [{ symbol_address := 1 }] = some [] ∧
    (runSession 1 [100] [{ symbol_address := 1 }]).map List.length = some 0 ∧
    ProfilerBuffer.new.period = 1048576 ∧
    ProfilerBuffer.new.next_sample = 1048576 ∧
    (ProfilerBuffer.new.track 100).should_flush = false := by
  decide

/-- Claim C2: the code's behaviour for overlapping session starts.  While
one guard is alive, a second `HeapProfilerGuard::new` suspends on the
session mutex (`lock().await`) — it neither fails nor completes — and
after the first guard is dropped it succeeds.  The variant
`Error::ConcurrentHeapProfiler` is never returned by any path. -/
theorem C2_theorem :
    heapProfilerGuardNew true = Poll.pending ∧
    heapProfilerGuardNew false = Poll.ready (Except.ok ()) ∧
    ∀ held : Bool,
      heapProfilerGuardNew held ≠ Poll.ready (Except.error Error.ConcurrentHeapProfiler) := by
  refine ⟨rfl, rfl, fun held => ?_⟩
  cases held <;> simp [heapProfilerGuardNew]

/-- Claim C3: the code's behaviour.  During an outer `track_allocated` the
`ENTERED` cell still reads `false` — the source assigns `true` only to
the local `entered_guard` copy — so a nested call issued from inside the
hot path observes `false` and is not a no-op: it re-enters the body and
mutates the thread-local buffer. -/
theorem C3_theorem :
    (trackAllocated true 100 { entered := false, buffer := ProfilerBuffer.new }).enteredDuring
      = some false ∧
    (trackAllocated true 64 { entered := false, buffer := ProfilerBuffer.new }).enteredDuring
      ≠ none ∧
    (trackAllocated true 64 { entered := false, buffer := ProfilerBuffer.new }).final.buffer
      ≠ ProfilerBuffer.new := by
  decide

/-- Claim C4 counterexample: one `on_alloc_event(+2097152)` on a fresh
buffer triggers a flush whose `|net| = 2097152` is at least the current
threshold (both before and after `track`'s bump), so the claim prescribes
a persistent threshold of `|net| + period = 3145728`; the code leaves the
thread's buffer at `2097152` (the `|net| + period` write lands on the
discarded clone). -/
theorem C4_counterexample :
    (trackAllocated true 2097152 { entered := false, buffer := ProfilerBuffer.new }).spawned
      = some (ProfilerBuffer.new.track 2097152) ∧
    (ProfilerBuffer.new.track 2097152).should_flush = true ∧
    specNextSample (ProfilerBuffer.new.track 2097152).next_sample 2097152
      ProfilerBuffer.new.period = 3145728 ∧
    specNextSample ProfilerBuffer.new.next_sample 2097152 ProfilerBuffer.new.period
      = 3145728 ∧
    (trackAllocated true 2097152
        { entered := false, buffer := ProfilerBuffer.new }).final.buffer.next_sample
      = 2097152 ∧
    (2097152 : Int) ≠ 3145728 := by
  decide

/-- Claim C4 (amended): on each flush the thread's persistent `next_sample`
advances by exactly `period` — the bump `track` applies when a threshold
is crossed (a flush implies such a crossing).  The `|net| + period`
recomputation in `flush` runs on the cloned buffer handed to the spawned
task and never reaches the thread's persistent buffer, whose counters are
zeroed and whose threshold equals the pre-event threshold plus period. -/
theorem C4_theorem (ts : ThreadState) (size : Int)
    (h1 : ts.entered = false)
    (h2 : (ts.buffer.track size).should_flush = true) :
    (trackAllocated true size ts).spawned = some (ts.buffer.track size) ∧
    (trackAllocated true size ts).final.buffer.next_sample
      = ts.buffer.next_sample + (ts.buffer.period : Int) ∧
    (trackAllocated true size ts).final.buffer.allocated_bytes = 0 ∧
    (trackAllocated true size ts).final.buffer.freed_bytes = 0 := by
  have hb := track_bump ts.buffer size h2
  unfold trackAllocated
  simp [h1, h2, ProfilerBuffer.reset_buffer, hb]

/-- Claim C4 witness: the amended theorem applied at a concrete flushing
event. -/
theorem C4_witness :
    ({ entered := false, buffer := ProfilerBuffer.new } : ThreadState).entered = false ∧
    (ProfilerBuffer.new.track 2097152).should_flush = true ∧
    (trackAllocated true 2097152
        { entered := false, buffer := ProfilerBuffer.new }).final.buffer.next_sample
      = ProfilerBuffer.new.next_sample + (ProfilerBuffer.new.period : Int) :=
  ⟨rfl, by decide,
    (C4_theorem { entered := false, buffer := ProfilerBuffer.new } 2097152 rfl (by decide)).2.1⟩

/-- Claim C5 counterexample: buffers with 1 and 2 captured frames sharing
the first symbol address compare equal under the code's `PartialEq`
(iterator zip truncates to the shorter side), yet their ordered
symbol-address sequences — the data fed to the hasher — differ, and so do
their frame counts. -/
theorem C5_counterexample :
    Frames.beq (N := 32) { frames := [{ symbol_address := 1 }], ts := 0 }
        { frames := [{ symbol_address := 1 }, { symbol_address := 2 }], ts := 0 } = true ∧
    Frames.hashInput (N := 32) { frames := [{ symbol_address := 1 }], ts := 0 }
      ≠ Frames.hashInput (N := 32)
          { frames := [{ symbol_address := 1 }, { symbol_address := 2 }], ts := 0 } ∧
    ({ frames := [{ symbol_address := 1 }], ts := 0 } : Frames 32).frames.length
      ≠ ({ frames := [{ symbol_address := 1 }, { symbol_address := 2 }],
           ts := 0 } : Frames 32).frames.length := by
  decide

/-- Claim C5 (amended): restricted to Frame Buffers with the same number
of captured frames, the code's equality holds iff the ordered sequences
of frame symbol addresses (exactly the data fed to the hasher) are equal;
equal same-size buffers therefore hash identically.  Without the
same-size restriction the equality compares only up to the shorter
buffer. -/
theorem C5_theorem (a b : Frames 32) (h : a.frames.length = b.frames.length) :
    Frames.beq a b = true ↔ a.hashInput = b.hashInput := by
  unfold Frames.beq Frames.hashInput
  exact zip_all_addr_iff a.frames b.frames h

/-- Claim C5 witness: the amended theorem applied to two concrete
same-size buffers. -/
theorem C5_witness :
    ({ frames := [{ symbol_address := 5 }, { symbol_address := 6 }],
       ts := 0 } : Frames 32).frames.length
      = ({ frames := [{ symbol_address := 5 }, { symbol_address := 7 }],
           ts := 3 } : Frames 32).frames.length ∧
    (Frames.beq (N := 32) { frames := [{ symbol_address := 5 }, { symbol_address := 6 }], ts := 0 }
        { frames := [{ symbol_address := 5 }, { symbol_address := 7 }], ts := 3 } = true ↔
      Frames.hashInput (N := 32)
          { frames := [{ symbol_address := 5 }, { symbol_address := 6 }], ts := 0 }
        = Frames.hashInput (N := 32)
            { frames := [{ symbol_address := 5 }, { symbol_address := 7 }], ts := 3 }) :=
  ⟨rfl, C5_theorem _ _ rfl⟩

/-- Claim C8: dropping the guard (`Profiler::stop`) stores `false` into the
enable flag unconditionally, and every later `on_alloc_event` on any
thread with the flag false schedules no flush, leaves the thread-local
accumulator untouched, and leaves the profiler state — hence every
collector — unchanged. -/
theorem C8_theorem :
    (∀ prev : Bool, profilerStop prev = false) ∧
    (∀ (size : Int) (ts : ThreadState) (st : ProfilerState) (stack : List Frame),
      (trackAllocated false size ts).spawned = none ∧
      (trackAllocated false size ts).final.buffer = ts.buffer ∧
      onAllocEvent false stack ts st size
        = some ((trackAllocated false size ts).final, st)) := by
  refine ⟨fun prev => rfl, fun size ts st stack => ?_⟩
  by_cases h : ts.entered <;>
    simp [trackAllocated, onAllocEvent, h]

/-- Claim C10: `Frames::push` has the precondition `size < N` (it returns
`none`, the model of the assertion, exactly when the buffer already holds
32 frames); the backtrace walk of `flush` stops as soon as `push` returns
false, so starting from an empty buffer the assertion can never fire —
`flush` always returns — and the buffer handed to the collector holds at
most 32 frames. -/
theorem C10_theorem :
    (∀ (f : Frames 32) (fr : Frame), f.push fr = none ↔ ¬ f.frames.length < 32) ∧
    (∀ stack : List Frame, ∃ bt : Frames 32,
        traceWalk (Frames.new 32) stack = some bt ∧ bt.frames.length ≤ 32) ∧
    (∀ (self : ProfilerBuffer) (stack : List Frame) (st : ProfilerState),
        (self.flush stack st).isSome = true) := by
  refine ⟨fun f fr => ?_, fun stack => ?_, fun self stack st => ?_⟩
  · unfold Frames.push
    by_cases h : f.frames.length < 32 <;> simp [h]
  · exact traceWalk_some stack (Frames.new 32) (by simp [Frames.new])
  · unfold ProfilerBuffer.flush
    obtain ⟨bt, hw, hlen⟩ := traceWalk_some stack (Frames.new 32) (by simp [Frames.new])
    split
    · rename_i heq
      rw [heq] at hw
      simp at hw
    · dsimp only
      split <;> rfl

/-- Claim C9: for every report and every hash-set iteration order,
`pprof()` succeeds and the emitted Profile is well formed: string-table
element 0 is `""`, every sample's value vector has the `sample_type`
length, all referenced string, function and location ids are in range,
`period_type` is `(space, bytes)`, `period` is the session period, and
`default_sample_type` references `alloc_space`. -/
theorem C9_theorem (mf : Bool) (data : List (PFrames × MemProfileRecord))
    (order : List String) (period : Nat) (hv : validOrder data order) :
    ∃ p, pprof mf data order period = some p ∧ wellFormed p period := by
  have hmem : ∀ e ∈ data, ∀ fr ∈ e.1.frames, ∀ sym ∈ fr,
      sym.name ∈ ("" :: order) ∧ sym.sys_name ∈ ("" :: order) ∧
        sym.filename ∈ ("" :: order) := by
    intro e he fr hfr sym hs
    obtain ⟨m1, m2, m3⟩ := mem_collectedStrings he hfr hs
    exact ⟨List.mem_cons_of_mem _ (hv.2.1 _ m1), List.mem_cons_of_mem _ (hv.2.1 _ m2),
      List.mem_cons_of_mem _ (hv.2.1 _ m3)⟩
  obtain ⟨st, samples, hb, hinv, hsamp⟩ := buildSamples_inv mf ("" :: order) data hmem
  have hip := innerPprof_eq mf data order period st samples hb
  refine ⟨{ sample_type := mfSampleType (order.length + 1) mf,
            default_sample_type := order.length + 3,
            sample := samples,
            string_table := (("" :: order) ++ mfTail mf) ++ [".*::Profiler::track_allocated"],
            period_type := ⟨order.length + 1 + (if mf then 8 else 4), order.length + 4⟩,
            period := (period : Int),
            function := st.fn_tbl,
            location := st.loc_tbl,
            drop_frames := (("" :: order) ++ mfTail mf).length }, ?_, ?_⟩
  · unfold pprof
    rw [hip]
    rfl
  · exact wellFormed_assembled mf order period st samples (by simpa using hinv) hsamp

/-- Claim C9 witness: the theorem applied to a concrete one-stack report
with a valid iteration order. -/
theorem C9_witness :
    validOrder [({ frames := [[{ name := "a", sys_name := "b", filename := "c", lineno := 7 }]] },
        { alloc_objects := 1, alloc_bytes := 100, free_objects := 2, free_bytes := 50 })]
      ["a", "b", "c"] ∧
    ∃ p, pprof true
        [({ frames := [[{ name := "a", sys_name := "b", filename := "c", lineno := 7 }]] },
          { alloc_objects := 1, alloc_bytes := 100, free_objects := 2, free_bytes := 50 })]
        ["a", "b", "c"] 1 = some p ∧ wellFormed p 1 :=
  ⟨by decide,
    C9_theorem true
      [({ frames := [[{ name := "a", sys_name := "b", filename := "c", lineno := 7 }]] },
        { alloc_objects := 1, alloc_bytes := 100, free_objects := 2, free_bytes := 50 })]
      ["a", "b", "c"] 1 (by decide)⟩

/-- Claim C6: the code's `sample_type` under `measure_free`, evaluated on a
one-stack report.  The value vector is
`[alloc_objects, alloc_bytes, free_objects, free_bytes, in_use_objects,
in_use_bytes]` and the sample types line up with it in order, but the
`free_space` entry carries the unit `count` — not `bytes` as the claim
(and the spec's units rule) requires; `inuse_space` does carry `bytes`. -/
theorem C6_theorem :
    (innerPprof true
        [({ frames := [[{ name := "a", sys_name := "b", filename := "c", lineno := 7 }]] },
          { alloc_objects := 1, alloc_bytes := 100, free_objects := 2, free_bytes := 50 })]
        ["a", "b", "c"] 1).map
      (fun p => (p.sample_type.map fun vt =>
          ((p.string_table.get? vt.ty).getD "", (p.string_table.get? vt.unit).getD ""),
        p.sample.map fun s => s.value))
    = some ([("alloc_objects", "count"), ("alloc_space", "bytes"), ("free_objects", "count"),
             ("free_space", "count"), ("inuse_objects", "count"), ("inuse_space", "bytes")],
            [[1, 100, 2, 50, -1, 50]]) := by
  decide

lemma processSymbol_shape (t : List String) (st : BuildSt) (locs : List Nat) (sym : Symbol)
    {r : BuildSt × List Nat} (h : processSymbol t (st, locs) sym = some r) :
    (∃ i, assocFind st.functions sym.name = some i ∧ r = (st, locs ++ [i])) ∨
    (assocFind st.functions sym.name = none ∧ ∃ n1 n2 n3,
      stringsGet t sym.name = some n1 ∧ stringsGet t sym.sys_name = some n2 ∧
      stringsGet t sym.filename = some n3 ∧
      r = ({ loc_tbl := st.loc_tbl ++ [{ id := st.fn_tbl.length + 1, line := [{ function_id := st.fn_tbl.length + 1, line := sym.lineno }] }], fn_tbl := st.fn_tbl ++ [{ id := st.fn_tbl.length + 1, name := n1, system_name := n2, filename := n3 }], functions := (sym.name, st.fn_tbl.length + 1) :: st.functions }, locs ++ [st.fn_tbl.length + 1])) := by
  unfold processSymbol at h
  dsimp only at h
  cases hma : assocFind st.functions sym.name with
  | some i =>
    rw [hma] at h
    exact Or.inl ⟨i, rfl, (Option.some_inj.mp h).symm⟩
  | none =>
    rw [hma] at h
    cases hn1 : stringsGet t sym.name with
    | none =>
      rw [hn1] at h
      simp at h
    | some n1 =>
      rw [hn1, Option.some_bind] at h
      cases hn2 : stringsGet t sym.sys_name with
      | none =>
        rw [hn2] at h
        simp at h
      | some n2 =>
        rw [hn2, Option.some_bind] at h
        cases hn3 : stringsGet t sym.filename with
        | none =>
          rw [hn3] at h
          simp at h
        | some n3 =>
          rw [hn3, Option.some_bind] at h
          exact Or.inr ⟨rfl, n1, n2, n3, rfl, rfl, rfl, (Option.some_inj.mp h).symm⟩

lemma processSymbol_congr (t t' : List String) (a a' : BuildSt × List Nat) (sym : Symbol)
    (hrel : loopRel a a') {r r' : BuildSt × List Nat}
    (h : processSymbol t a sym = some r) (h' : processSymbol t' a' sym = some r') :
    loopRel r r' := by
  obtain ⟨st, locs⟩ := a
  obtain ⟨st', locs'⟩ := a'
  obtain ⟨hfn, hloc, hlen, hlocs⟩ := hrel
  dsimp only at hfn hloc hlen hlocs
  rcases processSymbol_shape t st locs sym h with
    ⟨i, hma, hr⟩ | ⟨hma, n1, n2, n3, hn1, hn2, hn3, hr⟩ <;>
    rcases processSymbol_shape t' st' locs' sym h' with
      ⟨i', hma', hr'⟩ | ⟨hma', m1, m2, m3, hm1, hm2, hm3, hr'⟩
  · rw [hfn] at hma
    rw [hma] at hma'
    have hii := Option.some_inj.mp hma'
    subst hr hr' hii
    exact ⟨hfn, hloc, hlen, by dsimp only; rw [hlocs]⟩
  · rw [hfn, hma'] at hma
    simp at hma
  · rw [← hfn, hma] at hma'
    simp at hma'
  · subst hr hr'
    refine ⟨?_, ?_, ?_, ?_⟩
    · dsimp only
      rw [hfn, hlen]
    · dsimp only
      rw [hloc, hlen]
    · dsimp only
      simp [hlen]
    · dsimp only
      rw [hlocs, hlen]

lemma foldSymbols_congr (t t' : List String) :
    ∀ (syms : List Symbol) (a a' : BuildSt × List Nat), loopRel a a' →
    ∀ {r r' : BuildSt × List Nat},
    syms.foldlM (processSymbol t) a = some r →
    syms.foldlM (processSymbol t') a' = some r' →
    loopRel r r' := by
  intro syms
  induction syms with
  | nil =>
    intro a a' hrel r r' h h'
    rw [List.foldlM_nil] at h h'
    have ha := Option.some_inj.mp h
    have ha' := Option.some_inj.mp h'
    subst ha ha'
    exact hrel
  | cons s syms ih =>
    intro a a' hrel r r' h h'
    rw [List.foldlM_cons] at h h'
    cases hb : processSymbol t a s with
    | none =>
      rw [hb] at h
      simp at h
    | some b =>
      cases hb' : processSymbol t' a' s with
      | none =>
        rw [hb'] at h'
        simp at h'
      | some b' =>
        rw [hb] at h
        rw [hb'] at h'
        exact ih b b' (processSymbol_congr t t' a a' s hrel hb hb')
          (by simpa using h) (by simpa using h')

lemma buildStep_congr (mf : Bool) (t t' : List String) (a a' : BuildSt × List Sample)
    (e : PFrames × MemProfileRecord) (hrel : buildRel a a') {r r' : BuildSt × List Sample}
    (h : buildStep mf t a e = some r) (h' : buildStep mf t' a' e = some r') :
    buildRel r r' := by
  obtain ⟨hfn, hloc, hlen, hsmp⟩ := hrel
  unfold buildStep processKey at h h'
  cases hk : (e.1.frames.flatMap fun fr => fr).foldlM (processSymbol t) (a.1, []) with
  | none =>
    rw [hk] at h
    simp at h
  | some kr =>
    cases hk' : (e.1.frames.flatMap fun fr => fr).foldlM (processSymbol t') (a'.1, []) with
    | none =>
      rw [hk'] at h'
      simp at h'
    | some kr' =>
      rw [hk, Option.map_some'] at h
      rw [hk', Option.map_some'] at h'
      have hkrel : loopRel kr kr' :=
        foldSymbols_congr t t' _ (a.1, []) (a'.1, []) ⟨hfn, hloc, hlen, rfl⟩ hk hk'
      obtain ⟨hkfn, hkloc, hklen, hklocs⟩ := hkrel
      have hre := Option.some_inj.mp h
      have hre' := Option.some_inj.mp h'
      subst hre hre'
      exact ⟨hkfn, hkloc, hklen, by rw [hsmp, hklocs]⟩

lemma buildFold_congr (mf : Bool) (t t' : List String) :
    ∀ (data : List (PFrames × MemProfileRecord)) (a a' : BuildSt × List Sample),
    buildRel a a' →
    ∀ {r r' : BuildSt × List Sample},
    data.foldlM (buildStep mf t) a = some r →
    data.foldlM (buildStep mf t') a' = some r' →
    buildRel r r' := by
  intro data
  induction data with
  | nil =>
    intro a a' hrel r r' h h'
    rw [List.foldlM_nil] at h h'
    have ha := Option.some_inj.mp h
    have ha' := Option.some_inj.mp h'
    subst ha ha'
    exact hrel
  | cons e data ih =>
    intro a a' hrel r r' h h'
    rw [List.foldlM_cons] at h h'
    cases hb : buildStep mf t a e with
    | none =>
      rw [hb] at h
      simp at h
    | some b =>
      cases hb' : buildStep mf t' a' e with
      | none =>
        rw [hb'] at h'
        simp at h'
      | some b' =>
        rw [hb] at h
        rw [hb'] at h'
        exact ih b b' (buildStep_congr mf t t' a a' e hrel hb hb')
          (by simpa using h) (by simpa using h')

lemma buildSamples_congr (mf : Bool) (t t' : List String)
    (data : List (PFrames × MemProfileRecord)) {r r' : BuildSt × List Sample}
    (h : buildSamples mf t data = some r) (h' : buildSamples mf t' data = some r') :
    buildRel r r' :=
  buildFold_congr mf t t' data (BuildSt.empty, []) (BuildSt.empty, [])
    ⟨rfl, rfl, rfl, rfl⟩ h h'

/-- Claim C7 counterexample: the same report serialized with two different
(equally valid) iteration orders of the string-deduplication hash set —
which is freshly seeded on every `pprof()` call — yields different
Profiles, so two calls on the same Report are not byte-identical. -/
theorem C7_counterexample :
    validOrder [({ frames := [[{ name := "a", sys_name := "b", filename := "c", lineno := 7 }]] },
        { alloc_objects := 1, alloc_bytes := 100, free_objects := 2, free_bytes := 50 })]
      ["a", "b", "c"] ∧
    validOrder [({ frames := [[{ name := "a", sys_name := "b", filename := "c", lineno := 7 }]] },
        { alloc_objects := 1, alloc_bytes := 100, free_objects := 2, free_bytes := 50 })]
      ["c", "b", "a"] ∧
    pprof true [({ frames := [[{ name := "a", sys_name := "b", filename := "c", lineno := 7 }]] },
        { alloc_objects := 1, alloc_bytes := 100, free_objects := 2, free_bytes := 50 })]
      ["a", "b", "c"] 1
      ≠ pprof true
          [({ frames := [[{ name := "a", sys_name := "b", filename := "c", lineno := 7 }]] },
            { alloc_objects := 1, alloc_bytes := 100, free_objects := 2, free_bytes := 50 })]
          ["c", "b", "a"] 1 := by
  decide

/-- Claim C7 (amended): the Profile is a deterministic function of the
Report's data *together with* the iteration order of the freshly seeded
string-deduplication hash set, so two `pprof()` calls on the same Report
are byte-identical exactly when those orders coincide; for any two valid
orders the two Profiles differ only in string-table ordering — the string
tables are permutations of each other, and the samples (location ids and
value vectors), location table, period, and sample_type arity agree. -/
theorem C7_theorem (mf : Bool) (data : List (PFrames × MemProfileRecord)) (period : Nat)
    (o1 o2 : List String) (p1 p2 : Profile)
    (hv1 : validOrder data o1) (hv2 : validOrder data o2)
    (h1 : pprof mf data o1 period = some p1)
    (h2 : pprof mf data o2 period = some p2) :
    p1.string_table.Perm p2.string_table ∧
    p1.sample = p2.sample ∧
    p1.location = p2.location ∧
    p1.period = p2.period ∧
    p1.sample_type.length = p2.sample_type.length ∧
    (o1 = o2 → p1 = p2) := by
  cases hb1 : buildSamples mf ("" :: o1) data with
  | none =>
    unfold pprof innerPprof at h1
    dsimp only at h1
    rw [hb1] at h1
    simp at h1
  | some r1 =>
    obtain ⟨st1, s1⟩ := r1
    cases hb2 : buildSamples mf ("" :: o2) data with
    | none =>
      unfold pprof innerPprof at h2
      dsimp only at h2
      rw [hb2] at h2
      simp at h2
    | some r2 =>
      obtain ⟨st2, s2⟩ := r2
      have hip1 := innerPprof_eq mf data o1 period st1 s1 hb1
      have hip2 := innerPprof_eq mf data o2 period st2 s2 hb2
      unfold pprof at h1 h2
      rw [hip1, Option.map_some'] at h1
      rw [hip2, Option.map_some'] at h2
      have hp1 := Option.some_inj.mp h1
      have hp2 := Option.some_inj.mp h2
      subst hp1 hp2
      obtain ⟨hcfn, hcloc, hclen, hcs⟩ :=
        buildSamples_congr mf ("" :: o1) ("" :: o2) data hb1 hb2
      dsimp only at hcfn hcloc hclen hcs
      have hperm : o1.Perm o2 := by
        rw [List.perm_ext_iff_of_nodup hv1.1 hv2.1]
        intro a
        exact ⟨fun ha => hv2.2.1 a (hv1.2.2 a ha), fun ha => hv1.2.1 a (hv2.2.2 a ha)⟩
      refine ⟨?_, ?_, ?_, rfl, ?_, ?_⟩
      · exact ((hperm.cons "").append_right (mfTail mf)).append_right _
      · exact hcs
      · exact hcloc
      · dsimp only
        rw [mfSampleType_length, mfSampleType_length]
      · intro ho
        subst ho
        rw [hb1] at hb2
        have hpair := Option.some_inj.mp hb2
        injection hpair with hst hs
        subst hst hs
        rfl

/-- Claim C7 witness: the amended theorem applied to a concrete report and
two concrete valid iteration orders. -/
theorem C7_witness :
    validOrder [({ frames := [[{ name := "a", sys_name := "b", filename := "c", lineno := 7 }]] },
        { alloc_objects := 1, alloc_bytes := 100, free_objects := 2, free_bytes := 50 })]
      ["a", "b", "c"] ∧
    validOrder [({ frames := [[{ name := "a", sys_name := "b", filename := "c", lineno := 7 }]] },
        { alloc_objects := 1, alloc_bytes := 100, free_objects := 2, free_bytes := 50 })]
      ["c", "b", "a"] ∧
    ∃ p1 p2,
      pprof true [({ frames := [[{ name := "a", sys_name := "b", filename := "c", lineno := 7 }]] },
          { alloc_objects := 1, alloc_bytes := 100, free_objects := 2, free_bytes := 50 })]
        ["a", "b", "c"] 1 = some p1 ∧
      pprof true [({ frames := [[{ name := "a", sys_name := "b", filename := "c", lineno := 7 }]] },
          { alloc_objects := 1, alloc_bytes := 100, free_objects := 2, free_bytes := 50 })]
        ["c", "b", "a"] 1 = some p2 ∧
      p1.string_table.Perm p2.string_table := by
  refine ⟨by decide, by decide, ?_⟩
  obtain ⟨hperm, hsmp, hloc, hper, hlen, hid⟩ :=
    C7_theorem true
      [({ frames := [[{ name := "a", sys_name := "b", filename := "c", lineno := 7 }]] },
        { alloc_objects := 1, alloc_bytes := 100, free_objects := 2, free_bytes := 50 })]
      1 ["a", "b", "c"] ["c", "b", "a"] _ _ (by decide) (by decide) rfl rfl
  exact ⟨_, _, rfl, rfl, hperm⟩

end heappy
